import Mathlib

/-!
Shallow embedding of `src/chocolate/base.py` (the coordination layer of a
distributed hyperparameter-search session) and proofs about its behaviour.

The embedding models:
* the value / record / store data model that `Connection` manipulates,
* `SearchAlgorithm.__init__` (space reconciliation, base.py lines 84-115),
* `SearchAlgorithm.update` (loss normalization + store write, lines 117-141),
* `SearchAlgorithm.next` (crossvalidation dispatch, lines 143-159),
* `Connection.results_as_dataframe` (tabular snapshot, lines 51-77).

The `Space` class and the concrete store backends live outside `src/`
(`src/chocolate/space.py` and the connection modules are not part of the
given sources); they are modelled from the spec's Space and Store contracts
(spec sections 2 and 6) and each such definition is marked
`Modelled from the spec`.  Store-lock usage is modelled as an event trace:
the Python `with self.conn.lock():` block emits `acquire` on entry and
`release` on every exit path, normal or exceptional, which is the semantics
of a Python context manager.
-/

namespace Chocolate

/-- Values that can sit in a record field or a loss payload.  Python values
relevant to this file are numbers and strings; `Cell` adds the nullable
layer (`None`). -/
inductive Val where
  | num (n : Int)
  | str (s : String)
deriving DecidableEq, Repr

/-- A nullable field value: `Option.none` models Python `None`. -/
abbrev Cell := Option Val

/-- Association-list lookup with string keys; models Python `dict` access
(`d[k]` / `d.get(k)`): first binding for the key wins, `none` when the key
is absent. -/
def assocLookup {α : Type} : List (String × α) → String → Option α
  | [], _ => none
  | kv :: rest, k => if kv.1 = k then some kv.2 else assocLookup rest k

/-- Modelled from the spec: `Space` (src/chocolate/space.py is not among the
given sources).  Per the spec's Space contract it is an ordered,
equality-comparable schema mapping parameter names to distribution
descriptors; two spaces are equal iff names, order and distributions
match, which is the derived structural equality on the ordered list. -/
structure Space where
  params : List (String × String)
deriving DecidableEq, Repr

/-- Canonical ordered parameter names of a space (the spec's `names()`). -/
def Space.names (s : Space) : List String := s.params.map (fun kv => kv.1)

/-- Argument accepted by `SearchAlgorithm.__init__` for `space`: either an
actual `Space` instance or a raw space definition (a plain mapping) that
must be coerced through the `Space` constructor (base.py lines 85-86). -/
inductive SpaceInput where
  | space (s : Space)
  | raw (d : List (String × String))
deriving DecidableEq, Repr

/-- Coercion performed by base.py lines 85-86: a non-`Space` argument is
passed through the `Space` constructor, an actual `Space` is kept as is.
The constructor itself is modelled from the spec's Space contract as
building the ordered schema from the raw definition. -/
def coerceSpace : SpaceInput → Space
  | .space s => s
  | .raw d => Space.mk d

/-- One result record: a Python dict from field names to nullable values
(`_chocolate_id`, one field per space parameter, and zero or more
`_loss`-prefixed fields). -/
structure Record where
  fields : List (String × Cell)
deriving DecidableEq, Repr

/-- Field access on a record; `none` means the key is absent. -/
def Record.getField (r : Record) (k : String) : Option Cell :=
  assocLookup r.fields k

/-- Modelled from the spec: the store's state (the concrete backends are
external collaborators).  It holds at most one space, the result records
and the complementary documents. -/
structure Store where
  space : Option Space
  results : List Record
  complementary : List Record
deriving DecidableEq, Repr

/-- The empty store. -/
def Store.empty : Store := ⟨none, [], []⟩

/-- Modelled from the spec: `clear()` empties the store entirely (space,
results and complementary documents). -/
def Store.clear (_ : Store) : Store := ⟨none, [], []⟩

/-- Modelled from the spec: `insert_space` records the space in the store. -/
def Store.insertSpace (st : Store) (s : Space) : Store :=
  { st with space := some s }

/-- Store events, used to express lock discipline and mutation order as a
trace.  `consolePrint` is the `print(values)` call in `update`. -/
inductive Event where
  | acquire
  | release
  | getSpace
  | allResults
  | clear
  | insertSpace
  | updateResult
  | cvNext
  | hookCall
  | consolePrint
deriving DecidableEq, Repr

/-- Lock-balance check over a trace: `acquire` pushes, `release` pops and is
refused when the lock is not held; a trace is balanced at depth 0 when every
acquired lock is released by the end. -/
def locksBalanced : Nat → List Event → Bool
  | d, [] => d == 0
  | d, Event.acquire :: rest => locksBalanced (d + 1) rest
  | d, Event.release :: rest => d != 0 && locksBalanced (d - 1) rest
  | d, _ :: rest => locksBalanced d rest

/-- Test performed by `k.startswith("_loss")` (base.py line 67): character
prefix test on the string. -/
def isLossKey (k : String) : Bool :=
  "_loss".data.isPrefixOf k.data

/-- Loss payload passed to `update` (base.py lines 117-141).  The Python
branching is structural (`Sequence` / `Mapping` / `Number`); these shapes
are disjoint for the payloads at hand, and `other` stands for any value
that is none of the three. -/
inductive LossPayload where
  | seq (vs : List Val)
  | map (kvs : List (String × Val))
  | num (n : Int)
  | other (desc : String)
deriving DecidableEq, Repr

/-- Enumerated loss fields for a sequence payload, mirroring the dict
comprehension over `enumerate(values)` at base.py line 131: element `v` at
index `i` becomes the pair `("_loss_" ++ toString i, v)`. -/
def enumLoss : Nat → List Val → List (String × Val)
  | _, [] => []
  | i, v :: vs => ("_loss_" ++ toString i, v) :: enumLoss (i + 1) vs

/-- Normalization of the loss payload inside `update` (base.py lines
130-137): a sequence is enumerated into `_loss_<index>` fields, a mapping
gets each key replaced by `_loss_<key>`, a scalar number becomes the single
field `_loss`; any other value is left untouched by the chain of
`isinstance` tests. -/
def normalizeLoss : LossPayload → LossPayload
  | .seq vs => .map (enumLoss 0 vs)
  | .map kvs => .map (kvs.map (fun kv => ("_loss_" ++ kv.1, kv.2)))
  | .num n => .map [("_loss", Val.num n)]
  | .other d => .other d

/-- A payload is recognized when it matches one of the three documented
shapes (number, sequence, mapping). -/
def recognized : LossPayload → Bool
  | .other _ => false
  | _ => true

/-- Fields carried by a mapping-shaped payload (empty for the others). -/
def payloadFields : LossPayload → List (String × Val)
  | .map kvs => kvs
  | _ => []

/-- Effect of one update entry on an existing field: if the update carries
the field's key its value is replaced, otherwise the field is kept.
Together with `mergeFields` this is Python `dict.update`. -/
def applyUpd {α : Type} (upd : List (String × α)) (kv : String × α) : String × α :=
  match assocLookup upd kv.1 with
  | some v => (kv.1, v)
  | none => kv

/-- Python `dict.update` on association lists: existing keys keep their
position with the new value, keys not yet present are appended in update
order. -/
def mergeFields {α : Type} (fs upd : List (String × α)) : List (String × α) :=
  fs.map (applyUpd upd) ++ upd.filter (fun kv => (assocLookup fs kv.1).isNone)

/-- Writing a field set onto a record (`dict.update` on its fields). -/
def Record.merge (r : Record) (upd : List (String × Cell)) : Record :=
  ⟨mergeFields r.fields upd⟩

/-- Tokens are the opaque identifiers minted when a parameter set is
sampled; per the spec a token identifies exactly one result record, here
through its `_chocolate_id` field. -/
abbrev Token := Int

/-- Parameter sets returned by the sampling hook. -/
abbrev Params := List (String × Val)

/-- Modelled from the spec: the store's `update_result(token, values)`
writes the given fields onto the record identified by the token. -/
def Store.updateResult (st : Store) (t : Token) (upd : List (String × Cell)) : Store :=
  { st with
    results := st.results.map (fun r =>
      if r.getField "_chocolate_id" = some (some (Val.num t)) then r.merge upd else r) }

/-- Errors raised by `SearchAlgorithm.__init__` (the two `RuntimeError`
branches at base.py lines 92-99). -/
inductive InitErr where
  | noSpace
  | spaceMismatch
deriving DecidableEq, Repr

/-- Outcome of `SearchAlgorithm.__init__`: the raised error or the bound
space, the store after the call, and the event trace of the call. -/
structure InitOutcome where
  result : Except InitErr Space
  store : Store
  trace : List Event
deriving Repr

/-- Embedding of `SearchAlgorithm.__init__` (base.py lines 84-110): coerce
a non-`Space` argument through the `Space` constructor, then under the
store lock read the stored space and reconcile it with the local one.  The
crossvalidation binding at lines 112-115 touches no store state and is not
modelled.  Error branches leave the store untouched; the Python `with`
block emits `release` on every exit path, the raising ones included. -/
def SearchAlgorithm.init (st : Store) (spaceArg : Option SpaceInput) (clear_db : Bool) :
    InitOutcome :=
  let space : Option Space := spaceArg.map coerceSpace
  match space, st.space with
  | none, none =>
    ⟨.error .noSpace, st, [.acquire, .getSpace, .release]⟩
  | some sp, some dsp =>
    if sp ≠ dsp ∧ clear_db = false then
      ⟨.error .spaceMismatch, st, [.acquire, .getSpace, .release]⟩
    else if sp ≠ dsp ∧ clear_db = true then
      ⟨.ok sp, (st.clear).insertSpace sp,
        [.acquire, .getSpace, .clear, .insertSpace, .release]⟩
    else
      ⟨.ok sp, st, [.acquire, .getSpace, .release]⟩
  | some sp, none =>
    ⟨.ok sp, st.insertSpace sp, [.acquire, .getSpace, .insertSpace, .release]⟩
  | none, some dsp =>
    ⟨.ok dsp, st, [.acquire, .getSpace, .release]⟩

/-- Outcome of `SearchAlgorithm.update`: the store after the call, the
payload handed to `conn.update_result` (normalized, or untouched when the
shape was not recognized), and the event trace. -/
structure UpdateOutcome where
  store : Store
  passed : LossPayload
  trace : List Event
deriving Repr

/-- Embedding of `SearchAlgorithm.update` (base.py lines 117-141): the
payload is normalized (lines 130-137), printed (line 139, outside the
lock), then handed to the store's `update_result` under the lock.  For a
recognized payload the normalized mapping is written onto the record
identified by the token; an unrecognized payload reaches the store
unchanged and its effect is the backend's business — the store state is
left as is here. -/
def SearchAlgorithm.update (t : Token) (values : LossPayload) (st : Store) : UpdateOutcome :=
  let normalized := normalizeLoss values
  { store :=
      match normalized with
      | .map fields => st.updateResult t (fields.map (fun kv => (kv.1, some kv.2)))
      | _ => st
    passed := normalized
    trace := [.consolePrint, .acquire, .updateResult, .release] }

/-- Outcome of `SearchAlgorithm.next`: the returned pair (or the error
propagated from the sampling hook), the arguments of every call made to the
sampling hook, and the event trace. -/
structure NextOutcome where
  result : Except String (Token × Params)
  hookCalls : List (Option Token)
  trace : List Event

/-- Embedding of `SearchAlgorithm.next` (base.py lines 143-159).  `cv` is
`none` when no crossvalidation collaborator is bound, otherwise the pair
its `next()` returns; `hook` is the abstract sampling hook `_next`, which
may raise (modelled by `Except`).  The `with` block emits `release` on
every exit path, including when the hook raises. -/
def SearchAlgorithm.next (cv : Option (Option Token × Option Params))
    (hook : Option Token → Except String (Token × Params)) : NextOutcome :=
  match cv with
  | none =>
    ⟨hook none, [none], [.acquire, .hookCall, .release]⟩
  | some (some t, some p) =>
    ⟨.ok (t, p), [], [.acquire, .cvNext, .release]⟩
  | some (some t, none) =>
    ⟨hook (some t), [some t], [.acquire, .cvNext, .hookCall, .release]⟩
  | some (none, _) =>
    ⟨hook none, [none], [.acquire, .cvNext, .hookCall, .release]⟩

/-- Loss fields collected from a record: all fields whose name starts with
`_loss` (base.py line 67). -/
def recordLosses (r : Record) : List (String × Cell) :=
  r.fields.filter (fun kv => isLossKey kv.1)

/-- Test at base.py line 68: every collected loss value is non-null. -/
def lossesComplete (r : Record) : Bool :=
  (recordLosses r).all (fun kv => kv.2.isSome)

/-- One output row of `results_as_dataframe` (loop body, base.py lines
64-72): decode the record's positional parameter values through the space
in canonical name order, attach the collected loss fields only when they
are all non-null, then set the row key from `_chocolate_id`.  Records are
assumed to carry every parameter field (Python would raise `KeyError`
otherwise); an absent field decodes to null here. -/
def rowOf (s : Space) (r : Record) : List (String × Cell) :=
  let result := s.names.map (fun k => (k, (r.getField k).getD none))
  let result := if lossesComplete r then mergeFields result (recordLosses r) else result
  mergeFields result [("id", (r.getField "_chocolate_id").getD none)]

/-- Outcome of `results_as_dataframe`: the projected rows and the event
trace of the call. -/
structure FrameOutcome where
  rows : List (List (String × Cell))
  trace : List Event

/-- Embedding of `Connection.results_as_dataframe` (base.py lines 51-77):
under the lock read the space and all results as one snapshot, release,
then transform the snapshot into rows outside the lock.  When the store
holds no space, Python would fail while transforming (after release); the
rows are left empty in that unreachable configuration. -/
def Connection.results_as_dataframe (st : Store) : FrameOutcome :=
  { rows :=
      match st.space with
      | some s => st.results.map (rowOf s)
      | none => []
    trace := [.acquire, .getSpace, .allResults, .release] }

/-! ### Concrete instances used by witnesses -/

/-- A one-parameter space. -/
def spX : Space := ⟨[("x", "uniform 0 1")]⟩

/-- A different one-parameter space. -/
def spY : Space := ⟨[("y", "uniform 0 1")]⟩

/-- A store holding `spX` and one completed record. -/
def stX : Store :=
  ⟨some spX, [⟨[("_chocolate_id", some (Val.num 0)), ("x", some (Val.num 1))]⟩], []⟩

/-- A record whose `_loss_0` is set while `_loss_1` is still null. -/
def rPend : Record :=
  ⟨[("_chocolate_id", some (Val.num 0)), ("x", some (Val.num 1)),
    ("_loss_0", some (Val.num 2)), ("_loss_1", none)]⟩

/-- A store holding `spX` and the pending record `rPend`. -/
def stPend : Store := ⟨some spX, [rPend], []⟩

/-! ### Helper lemmas -/

theorem isPrefixOf_extend {α : Type} [BEq α] :
    ∀ (a b t : List α), a.isPrefixOf b = true → a.isPrefixOf (b ++ t) = true := by
  intro a
  induction a with
  | nil =>
    intro b t _
    cases hbt : b ++ t <;> rfl
  | cons x xs ih =>
    intro b t h
    cases b with
    | nil => exact absurd h (by simp [List.isPrefixOf])
    | cons y ys =>
      rw [List.cons_append]
      simp only [List.isPrefixOf, Bool.and_eq_true] at h ⊢
      exact ⟨h.1, ih ys t h.2⟩

theorem isLossKey_append (s : String) : isLossKey ("_loss_" ++ s) = true := by
  have h1 : ("_loss_" : String) ++ s = "_loss" ++ ("_" ++ s) := by
    have h0 : ("_loss_" : String) = "_loss" ++ "_" := by decide
    rw [h0, String.append_assoc]
  rw [isLossKey, h1, String.data_append]
  exact isPrefixOf_extend _ _ _ (by decide)

theorem assocLookup_eq_none_of_keys {α : Type} (p : String → Bool)
    {l : List (String × α)} {k : String}
    (hl : ∀ kv ∈ l, p kv.1 = true) (hk : p k = false) :
    assocLookup l k = none := by
  induction l with
  | nil => rfl
  | cons kv rest ih =>
    rw [assocLookup]
    have hkv : p kv.1 = true := hl kv (List.mem_cons_self kv rest)
    have hne : ¬ kv.1 = k := by
      intro he
      rw [he, hk] at hkv
      exact Bool.false_ne_true hkv
    rw [if_neg hne]
    exact ih (fun kv' h' => hl kv' (List.mem_cons_of_mem kv h'))

theorem assocLookup_filter_none {α : Type} {l : List (String × α)} {k : String}
    (q : String × α → Bool) (h : assocLookup l k = none) :
    assocLookup (l.filter q) k = none := by
  induction l with
  | nil => rfl
  | cons kv rest ih =>
    rw [assocLookup] at h
    by_cases he : kv.1 = k
    · rw [if_pos he] at h
      exact absurd h (by simp)
    · rw [if_neg he] at h
      rw [List.filter]
      cases q kv with
      | false => exact ih h
      | true =>
        rw [assocLookup, if_neg he]
        exact ih h

theorem assocLookup_append {α : Type} (l₁ l₂ : List (String × α)) (k : String) :
    assocLookup (l₁ ++ l₂) k =
      match assocLookup l₁ k with
      | some v => some v
      | none => assocLookup l₂ k := by
  induction l₁ with
  | nil => rfl
  | cons kv rest ih =>
    rw [List.cons_append, assocLookup, assocLookup]
    by_cases he : kv.1 = k
    · rw [if_pos he, if_pos he]
    · rw [if_neg he, if_neg he, ih]

theorem applyUpd_fst {α : Type} (upd : List (String × α)) (kv : String × α) :
    (applyUpd upd kv).1 = kv.1 := by
  rw [applyUpd]
  cases assocLookup upd kv.1 <;> rfl

theorem assocLookup_map_applyUpd {α : Type} (fs upd : List (String × α)) (k : String)
    (h : assocLookup upd k = none) :
    assocLookup (fs.map (applyUpd upd)) k = assocLookup fs k := by
  induction fs with
  | nil => rfl
  | cons kv rest ih =>
    rw [List.map_cons, assocLookup, assocLookup, applyUpd_fst]
    by_cases he : kv.1 = k
    · rw [if_pos he, if_pos he]
      have hv : assocLookup upd kv.1 = none := he ▸ h
      rw [applyUpd, hv]
    · rw [if_neg he, if_neg he, ih]

theorem assocLookup_mergeFields_of_none {α : Type} (fs upd : List (String × α)) (k : String)
    (h : assocLookup upd k = none) :
    assocLookup (mergeFields fs upd) k = assocLookup fs k := by
  rw [mergeFields, assocLookup_append, assocLookup_map_applyUpd fs upd k h,
    assocLookup_filter_none _ h]
  cases assocLookup fs k <;> rfl

theorem mem_mergeFields_left {α : Type} {fs upd : List (String × α)} {kv : String × α}
    (hm : kv ∈ fs) (h : assocLookup upd kv.1 = none) :
    kv ∈ mergeFields fs upd := by
  rw [mergeFields]
  apply List.mem_append_left
  have : applyUpd upd kv = kv := by rw [applyUpd, h]
  exact this ▸ List.mem_map_of_mem (applyUpd upd) hm

theorem mem_mergeFields_right {α : Type} {fs upd : List (String × α)} {kv : String × α}
    (hm : kv ∈ upd) (h : assocLookup fs kv.1 = none) :
    kv ∈ mergeFields fs upd := by
  rw [mergeFields]
  apply List.mem_append_right
  exact List.mem_filter.mpr ⟨hm, by rw [h]; rfl⟩

theorem mergeFields_keys {α : Type} (p : String → Bool) {fs upd : List (String × α)}
    (hfs : ∀ kv ∈ fs, p kv.1 = true) (hupd : ∀ kv ∈ upd, p kv.1 = true) :
    ∀ kv ∈ mergeFields fs upd, p kv.1 = true := by
  intro kv hm
  rw [mergeFields] at hm
  rcases List.mem_append.mp hm with hm' | hm'
  · obtain ⟨kv₀, h₀, he⟩ := List.mem_map.mp hm'
    rw [← he, applyUpd_fst]
    exact hfs kv₀ h₀
  · exact hupd kv (List.mem_filter.mp hm').1

theorem enumLoss_length (j : Nat) (vs : List Val) :
    (enumLoss j vs).length = vs.length := by
  induction vs generalizing j with
  | nil => rfl
  | cons v rest ih => simp [enumLoss, ih]

theorem enumLoss_getElem? (j i : Nat) (vs : List Val) :
    (enumLoss j vs)[i]? = (vs[i]?).map (fun v => ("_loss_" ++ toString (j + i), v)) := by
  induction vs generalizing j i with
  | nil => simp [enumLoss]
  | cons v rest ih =>
    cases i with
    | zero => simp [enumLoss]
    | succ i' =>
      rw [enumLoss]
      have := ih (j + 1) i'
      simp only [List.getElem?_cons_succ, this]
      have harith : j + 1 + i' = j + (i' + 1) := by omega
      rw [harith]

theorem enumLoss_keys (j : Nat) (vs : List Val) :
    ∀ kv ∈ enumLoss j vs, isLossKey kv.1 = true := by
  induction vs generalizing j with
  | nil => intro kv hm; exact absurd hm (List.not_mem_nil kv)
  | cons v rest ih =>
    intro kv hm
    rw [enumLoss] at hm
    rcases List.mem_cons.mp hm with he | hm'
    · rw [he]
      exact isLossKey_append (toString j)
    · exact ih (j + 1) kv hm'

theorem normalizeLoss_recognized (v : LossPayload) (h : recognized v = true) :
    ∃ fields, normalizeLoss v = .map fields ∧ ∀ kv ∈ fields, isLossKey kv.1 = true := by
  cases v with
  | seq vs =>
    exact ⟨enumLoss 0 vs, rfl, enumLoss_keys 0 vs⟩
  | map kvs =>
    refine ⟨_, rfl, ?_⟩
    intro kv hm
    obtain ⟨kv₀, _, he⟩ := List.mem_map.mp hm
    rw [← he]
    exact isLossKey_append kv₀.1
  | num n =>
    refine ⟨_, rfl, ?_⟩
    intro kv hm
    have he := List.mem_singleton.mp hm
    rw [he]
    show isLossKey "_loss" = true
    decide
  | other d => exact absurd h (by rw [recognized]; exact Bool.false_ne_true)

/-! ### Claim theorems -/

/-- Claim C2: the normalization step of `update` maps a scalar number `v` to
the single field `_loss` holding `v`, an ordered sequence of length `k` to
the fields `_loss_0` through `_loss_(k-1)` holding the elements in order,
and a mapping to one field `_loss_<key>` per original key, with every value
unchanged. -/
theorem c2_normalize_loss_shapes :
    (∀ n : Int, normalizeLoss (.num n) = .map [("_loss", Val.num n)]) ∧
    (∀ vs : List Val, ∃ out, normalizeLoss (.seq vs) = .map out ∧
      out.length = vs.length ∧
      ∀ i : Nat, out[i]? = (vs[i]?).map (fun v => ("_loss_" ++ toString i, v))) ∧
    (∀ kvs : List (String × Val), ∃ out, normalizeLoss (.map kvs) = .map out ∧
      out.length = kvs.length ∧
      ∀ i : Nat, out[i]? = (kvs[i]?).map (fun kv => ("_loss_" ++ kv.1, kv.2))) := by
  refine ⟨fun n => rfl, fun vs => ⟨enumLoss 0 vs, rfl, enumLoss_length 0 vs, ?_⟩,
    fun kvs => ⟨_, rfl, by simp, fun i => by simp⟩⟩
  intro i
  rw [enumLoss_getElem? 0 i vs, Nat.zero_add]

/-- Claim C3 counterexample: an unrecognized payload (neither number,
sequence nor mapping) is not rejected by `update`; the normalization chain
leaves it untouched and it is handed to the store's `update_result` (the
`updateResult` event is in the trace), so no type error is raised. -/
theorem c3_counterexample :
    (SearchAlgorithm.update 0 (LossPayload.other "set instance") Store.empty).passed
        = LossPayload.other "set instance" ∧
    Event.updateResult ∈
      (SearchAlgorithm.update 0 (LossPayload.other "set instance") Store.empty).trace :=
  ⟨rfl, by decide⟩

/-- Claim C3 (amended): for a loss payload that is neither a scalar number,
nor a sequence, nor a mapping, `update` raises no type error: all
`isinstance` branches fail, the payload is left unchanged by normalization
and it is passed on to the store's `update_result` as is. -/
theorem c3_unrecognized_passthrough :
    ∀ (t : Token) (st : Store) (d : String),
      normalizeLoss (.other d) = .other d ∧
      (SearchAlgorithm.update t (.other d) st).passed = .other d ∧
      (SearchAlgorithm.update t (.other d) st).trace
        = [.consolePrint, .acquire, .updateResult, .release] :=
  fun _ _ _ => ⟨rfl, rfl, rfl⟩

/-- Claim C8: the loss-normalization step of `update` is deterministic and
side-effect-free: `normalizeLoss` is a pure function of the payload (equal
inputs give equal normalized field sets, and its type involves no store,
console or trace), and the whole effect of `update` on the store, the
passed payload and the trace factors through it. -/
theorem c8_normalize_deterministic :
    (∀ v₁ v₂ : LossPayload, v₁ = v₂ → normalizeLoss v₁ = normalizeLoss v₂) ∧
    (∀ (t : Token) (st : Store) (v₁ v₂ : LossPayload),
      normalizeLoss v₁ = normalizeLoss v₂ →
      SearchAlgorithm.update t v₁ st = SearchAlgorithm.update t v₂ st) := by
  constructor
  · intro v₁ v₂ h
    rw [h]
  · intro t st v₁ v₂ h
    simp only [SearchAlgorithm.update, h]

/-- Claim C8 witness: two concretely different payloads with equal
normalizations drive `update` to identical outcomes, and equal inputs give
equal normalizations. -/
theorem c8_witness :
    normalizeLoss (LossPayload.num 3) = normalizeLoss (LossPayload.num 3) ∧
    SearchAlgorithm.update 1 (LossPayload.seq [Val.num 5]) Store.empty
      = SearchAlgorithm.update 1 (LossPayload.map [("0", Val.num 5)]) Store.empty :=
  ⟨c8_normalize_deterministic.1 (LossPayload.num 3) (LossPayload.num 3) rfl,
   c8_normalize_deterministic.2 1 Store.empty (LossPayload.seq [Val.num 5])
     (LossPayload.map [("0", Val.num 5)]) (by decide)⟩

/-- Claim C10: the constructor accepts a space argument that is not a
`Space` instance and coerces it through the `Space` constructor before any
comparison or store interaction, so construction on the raw definition is
indistinguishable from construction on the corresponding `Space` value. -/
theorem c10_raw_space_coerced :
    ∀ (st : Store) (d : List (String × String)) (cd : Bool),
      SearchAlgorithm.init st (some (SpaceInput.raw d)) cd
        = SearchAlgorithm.init st (some (SpaceInput.space (Space.mk d))) cd :=
  fun _ _ _ => rfl

/-- Claim C1: construction resolves the local and stored space exactly per
the case table: no space anywhere raises an error; only a local space gets
inserted; only a stored space gets adopted; equal spaces leave the store as
is; differing spaces without `clear_db` raise an error; differing spaces
with `clear_db` clear the store entirely and insert the local space.  Each
conjunct also pins the store after the call and the event trace. -/
theorem c1_init_case_table :
    ∀ (st : Store) (sp dsp : Space) (cd : Bool),
      (st.space = none →
        SearchAlgorithm.init st none cd
          = ⟨.error .noSpace, st, [.acquire, .getSpace, .release]⟩) ∧
      (st.space = none →
        SearchAlgorithm.init st (some (.space sp)) cd
          = ⟨.ok sp, st.insertSpace sp,
              [.acquire, .getSpace, .insertSpace, .release]⟩) ∧
      (st.space = some dsp →
        SearchAlgorithm.init st none cd
          = ⟨.ok dsp, st, [.acquire, .getSpace, .release]⟩) ∧
      (st.space = some dsp →
        SearchAlgorithm.init st (some (.space dsp)) cd
          = ⟨.ok dsp, st, [.acquire, .getSpace, .release]⟩) ∧
      (st.space = some dsp → sp ≠ dsp →
        SearchAlgorithm.init st (some (.space sp)) false
          = ⟨.error .spaceMismatch, st, [.acquire, .getSpace, .release]⟩) ∧
      (st.space = some dsp → sp ≠ dsp →
        SearchAlgorithm.init st (some (.space sp)) true
          = ⟨.ok sp, ⟨some sp, [], []⟩,
              [.acquire, .getSpace, .clear, .insertSpace, .release]⟩) := by
  intro st sp dsp cd
  obtain ⟨spc, res, comp⟩ := st
  refine ⟨fun h => ?_, fun h => ?_, fun h => ?_, fun h => ?_,
    fun h hne => ?_, fun h hne => ?_⟩
  all_goals simp only [Store.space] at h
  all_goals subst h
  · rfl
  · rfl
  · rfl
  · simp [SearchAlgorithm.init, coerceSpace]
  · simp [SearchAlgorithm.init, coerceSpace, hne]
  · simp [SearchAlgorithm.init, coerceSpace, hne, Store.clear, Store.insertSpace]

/-- Claim C1 witness: with a stored space, a different local space and
`clear_db` set, construction empties the store (one prior result dropped)
and installs the local space. -/
theorem c1_witness :
    stX.space = some spX ∧ spY ≠ spX ∧
    SearchAlgorithm.init stX (some (.space spY)) true
      = ⟨.ok spY, ⟨some spY, [], []⟩,
          [.acquire, .getSpace, .clear, .insertSpace, .release]⟩ :=
  ⟨rfl, by decide, (c1_init_case_table stX spY spX true).2.2.2.2.2 rfl (by decide)⟩

/-- Claim C7: when construction fails (no space anywhere, or mismatching
spaces without the `clear_db` override), the error is raised before any
store mutation: the store after the call equals the store before it. -/
theorem c7_no_mutation_on_error :
    ∀ (st : Store) (sa : Option SpaceInput) (cd : Bool) (e : InitErr),
      (SearchAlgorithm.init st sa cd).result = .error e →
      (SearchAlgorithm.init st sa cd).store = st := by
  intro st sa cd e h
  obtain ⟨spc, res, comp⟩ := st
  rcases sa with _ | si
  · rcases spc with _ | dsp
    · rfl
    · exact absurd h (by simp [SearchAlgorithm.init])
  · rcases spc with _ | dsp
    · exact absurd h (by simp [SearchAlgorithm.init])
    · by_cases hc1 : coerceSpace si ≠ dsp ∧ cd = false
      · simp [SearchAlgorithm.init, hc1]
      · by_cases hc2 : coerceSpace si ≠ dsp ∧ cd = true
        · exact absurd h (by simp [SearchAlgorithm.init, hc1, hc2])
        · simp [SearchAlgorithm.init, hc1, hc2]

/-- Claim C7 witness: constructing over an empty store with no local space
raises the no-space error and leaves the store untouched. -/
theorem c7_witness :
    (SearchAlgorithm.init Store.empty none false).result = .error .noSpace ∧
    (SearchAlgorithm.init Store.empty none false).store = Store.empty :=
  ⟨rfl, c7_no_mutation_on_error Store.empty none false .noSpace rfl⟩

/-- Claim C5: in `next()`, when the crossvalidation collaborator returns a
token together with parameters, that pair is returned immediately with no
call to the sampling hook; when it returns a token with no parameters, the
hook is invoked with exactly that token, its result is returned, and —
since the sampling hook keeps the identity of a token it is handed
(`hpres`) — the token finally returned equals it; when it returns neither,
the hook is invoked with no token context and its result is returned as
is. -/
theorem c5_next_crossvalidation_dispatch
    (hook : Option Token → Except String (Token × Params))
    (hpres : ∀ tk tp, hook (some tk) = Except.ok tp → tp.1 = tk) :
    ∀ (t : Token) (p : Params),
      (SearchAlgorithm.next (some (some t, some p)) hook).result = .ok (t, p) ∧
      (SearchAlgorithm.next (some (some t, some p)) hook).hookCalls = [] ∧
      (SearchAlgorithm.next (some (some t, none)) hook).hookCalls = [some t] ∧
      (SearchAlgorithm.next (some (some t, none)) hook).result = hook (some t) ∧
      (∀ tp, (SearchAlgorithm.next (some (some t, none)) hook).result = .ok tp →
        tp.1 = t) ∧
      (SearchAlgorithm.next (some (none, none)) hook).hookCalls = [none] ∧
      (SearchAlgorithm.next (some (none, none)) hook).result = hook none := by
  intro t p
  refine ⟨rfl, rfl, rfl, rfl, ?_, rfl, rfl⟩
  intro tp htp
  exact hpres t tp htp

/-- Claim C5 witness: with a token-preserving hook that samples parameter
`x = 1`, a crossvalidation answer carrying token 3 and no parameters makes
`next` call the hook on token 3 and return that very token. -/
theorem c5_witness :
    (SearchAlgorithm.next (some (some 3, none))
        (fun o => Except.ok (o.getD 7, [("x", Val.num 1)]))).hookCalls = [some 3] ∧
    (SearchAlgorithm.next (some (some 3, none))
        (fun o => Except.ok (o.getD 7, [("x", Val.num 1)]))).result
      = .ok (3, [("x", Val.num 1)]) ∧ (3 : Token) = 3 := by
  have hpres : ∀ (tk : Token) (tp : Token × Params),
      (Except.ok (tk, [("x", Val.num 1)]) : Except String (Token × Params))
          = Except.ok tp → tp.1 = tk := by
    intro tk tp h
    injection h with h'
    rw [← h']
  have h := c5_next_crossvalidation_dispatch
    (fun o => Except.ok (o.getD 7, [("x", Val.num 1)])) hpres 3 []
  exact ⟨h.2.2.1, rfl, h.2.2.2.2.1 (3, [("x", Val.num 1)]) rfl⟩

/-- Claim C9: every lock-acquiring operation (construction, `next`,
`update`, and the snapshot read of `results_as_dataframe`) releases the
lock on every exit path — the event trace is lock-balanced for all inputs,
including when the sampling hook raises inside `next` — and in
`results_as_dataframe` the lock scope covers exactly the paired read of the
space and the results: its trace is literally acquire, read space, read
results, release, with the transformation contributing no store event after
the release. -/
theorem c9_lock_discipline :
    (∀ (st : Store) (sa : Option SpaceInput) (cd : Bool),
      locksBalanced 0 (SearchAlgorithm.init st sa cd).trace = true) ∧
    (∀ (cv : Option (Option Token × Option Params))
       (hook : Option Token → Except String (Token × Params)),
      locksBalanced 0 (SearchAlgorithm.next cv hook).trace = true ∧
      Event.release ∈ (SearchAlgorithm.next cv hook).trace) ∧
    (∀ (t : Token) (v : LossPayload) (st : Store),
      locksBalanced 0 (SearchAlgorithm.update t v st).trace = true) ∧
    (∀ st : Store, (Connection.results_as_dataframe st).trace
        = [.acquire, .getSpace, .allResults, .release]) := by
  refine ⟨?_, ?_, ?_, fun st => rfl⟩
  · intro st sa cd
    obtain ⟨spc, res, comp⟩ := st
    rcases sa with _ | si
    · rcases spc with _ | dsp
      · rfl
      · rfl
    · rcases spc with _ | dsp
      · rfl
      · by_cases hc1 : coerceSpace si ≠ dsp ∧ cd = false
        · simp [SearchAlgorithm.init, hc1]
          decide
        · by_cases hc2 : coerceSpace si ≠ dsp ∧ cd = true
          · simp [SearchAlgorithm.init, hc1, hc2]
            decide
          · simp [SearchAlgorithm.init, hc1, hc2]
            decide
  · intro cv hook
    rcases cv with _ | ⟨_ | t, _ | p⟩ <;> exact ⟨rfl, by simp [SearchAlgorithm.next]⟩
  · intro t v st
    show locksBalanced 0 [.consolePrint, .acquire, .updateResult, .release] = true
    decide

/-- Claim C6: for every token and recognized loss payload, `update` passes
to the store only fields whose names carry the `_loss` prefix, and the
store write leaves the result set the same size, keeps every record not
identified by the token untouched, and on the identified record changes no
field outside the `_loss` names — positional parameter fields are never
among the written fields. -/
theorem c6_update_writes_only_loss_fields :
    ∀ (t : Token) (v : LossPayload) (st : Store), recognized v = true →
      ((payloadFields (SearchAlgorithm.update t v st).passed).all
          (fun kv => isLossKey kv.1)) = true ∧
      (SearchAlgorithm.update t v st).store.results.length = st.results.length ∧
      (∀ (i : Nat) (r r' : Record),
        st.results[i]? = some r →
        ((SearchAlgorithm.update t v st).store.results)[i]? = some r' →
        (r.getField "_chocolate_id" ≠ some (some (Val.num t)) → r' = r) ∧
        (∀ k : String, isLossKey k = false → r'.getField k = r.getField k)) := by
  intro t v st h
  obtain ⟨fields, hnorm, hkeys⟩ := normalizeLoss_recognized v h
  have hupd : SearchAlgorithm.update t v st
      = ⟨st.updateResult t (fields.map (fun kv => (kv.1, some kv.2))), .map fields,
          [.consolePrint, .acquire, .updateResult, .release]⟩ := by
    simp only [SearchAlgorithm.update, hnorm]
  rw [hupd]
  have hupdkeys : ∀ kv ∈ fields.map (fun kv => (kv.1, (some kv.2 : Cell))),
      isLossKey kv.1 = true := by
    intro kv hm
    obtain ⟨kv₀, h₀, he⟩ := List.mem_map.mp hm
    rw [← he]
    exact hkeys kv₀ h₀
  refine ⟨List.all_eq_true.mpr hkeys, List.length_map _ _, ?_⟩
  intro i r r' hr hr'
  have hr'' : (st.results.map (fun r =>
      if r.getField "_chocolate_id" = some (some (Val.num t))
      then r.merge (fields.map (fun kv => (kv.1, some kv.2))) else r))[i]? = some r' := hr'
  rw [List.getElem?_map, hr, Option.map_some'] at hr''
  have hg := Option.some.inj hr''
  constructor
  · intro hne
    rw [← hg, if_neg hne]
  · intro k hk
    by_cases hid : r.getField "_chocolate_id" = some (some (Val.num t))
    · rw [← hg, if_pos hid]
      show assocLookup (mergeFields r.fields (fields.map (fun kv => (kv.1, some kv.2)))) k
          = assocLookup r.fields k
      exact assocLookup_mergeFields_of_none _ _ _
        (assocLookup_eq_none_of_keys isLossKey hupdkeys hk)
    · rw [← hg, if_neg hid]

/-- Claim C6 witness: a two-element sequence payload on a concrete store
passes only `_loss`-prefixed fields to the store and keeps the result-set
size. -/
theorem c6_witness :
    recognized (LossPayload.seq [Val.num 2, Val.num 4]) = true ∧
    ((payloadFields
        (SearchAlgorithm.update 0 (LossPayload.seq [Val.num 2, Val.num 4]) stX).passed).all
          (fun kv => isLossKey kv.1)) = true ∧
    (SearchAlgorithm.update 0 (LossPayload.seq [Val.num 2, Val.num 4]) stX).store.results.length
      = stX.results.length := by
  have h := c6_update_writes_only_loss_fields 0 (LossPayload.seq [Val.num 2, Val.num 4])
    stX (by decide)
  exact ⟨by decide, h.1, h.2.1⟩

/-- Claim C4: in the table produced by `results_as_dataframe`, a record's
row carries loss columns only when every loss field collected from the
record is non-null: one null loss field (such as `_loss_1` still pending
while `_loss_0` is set) leaves the row without any `_loss` column, and when
all collected loss fields are non-null they are all attached to the row. -/
theorem c4_pending_rows_carry_no_loss :
    ∀ (st : Store) (s : Space) (r : Record),
      st.space = some s →
      (∀ n ∈ s.names, isLossKey n = false) →
      r ∈ st.results →
      rowOf s r ∈ (Connection.results_as_dataframe st).rows ∧
      (lossesComplete r = false →
        ((rowOf s r).any (fun kv => isLossKey kv.1)) = false) ∧
      (lossesComplete r = true →
        ∀ kv ∈ recordLosses r, kv ∈ rowOf s r) := by
  intro st s r hsp hnames hmem
  have hparams : ∀ kv ∈ s.names.map (fun k => (k, (r.getField k).getD none)),
      (!(isLossKey kv.1)) = true := by
    intro kv hm
    obtain ⟨k, hk, he⟩ := List.mem_map.mp hm
    rw [← he]
    simp [hnames k hk]
  refine ⟨?_, ?_, ?_⟩
  · have hframe : (Connection.results_as_dataframe st).rows = st.results.map (rowOf s) := by
      simp [Connection.results_as_dataframe, hsp]
    rw [hframe]
    exact List.mem_map_of_mem (rowOf s) hmem
  · intro hc
    have hrow : rowOf s r
        = mergeFields (s.names.map (fun k => (k, (r.getField k).getD none)))
            [("id", (r.getField "_chocolate_id").getD none)] := by
      simp [rowOf, hc]
    rw [hrow]
    apply Bool.eq_false_iff.mpr
    intro hany
    obtain ⟨kv, hkv, hloss⟩ := List.any_eq_true.mp hany
    have hid : ∀ kv ∈ [("id", (r.getField "_chocolate_id").getD none)],
        (!(isLossKey kv.1)) = true := by
      intro kv hm
      rw [List.mem_singleton.mp hm]
      show (!(isLossKey "id")) = true
      decide
    have hnot := mergeFields_keys (fun n => !(isLossKey n)) hparams hid kv hkv
    simp [hloss] at hnot
  · intro hc kv hm
    have hlosskv : isLossKey kv.1 = true := (List.mem_filter.mp hm).2
    have hrow : rowOf s r
        = mergeFields
            (mergeFields (s.names.map (fun k => (k, (r.getField k).getD none)))
              (recordLosses r))
            [("id", (r.getField "_chocolate_id").getD none)] := by
      simp [rowOf, hc]
    rw [hrow]
    apply mem_mergeFields_left
    · apply mem_mergeFields_right hm
      apply assocLookup_eq_none_of_keys (fun n => !(isLossKey n)) hparams
      simp [hlosskv]
    · have hne : ¬ (("id", (r.getField "_chocolate_id").getD none).1 = kv.1) := by
        intro he
        rw [← he] at hlosskv
        have hbad : isLossKey "id" = true := hlosskv
        exact absurd hbad (by decide)
      simp [assocLookup, hne]

/-- Claim C4 witness: the record with `_loss_0` set and `_loss_1` null is
incomplete and its projected row carries no `_loss` column. -/
theorem c4_witness :
    lossesComplete rPend = false ∧
    ((rowOf spX rPend).any (fun kv => isLossKey kv.1)) = false :=
  ⟨by decide,
   (c4_pending_rows_carry_no_loss stPend spX rPend rfl (by decide) (by decide)).2.1
     (by decide)⟩

end Chocolate
